import Mathlib

/-!
# Apptainer: sandbox image format and build-definition URIs

A shallow embedding of

* `pkg/image/sandbox.go` (`sandboxFormat.initializer`, `openMode`, `lock`), and
* `pkg/build/types/definition.go` (`NewDefinitionFromURI`, `NewDefinitionFromJSON`,
  `populateRaw` and the section writers it calls),

followed by the properties proved about them.

Conventions of the embedding:

* a Go `string` and a Go `[]byte` are both finite byte sequences (`GoString`);
* a Go `error` result is an `Option GoError`, `none` standing for `nil`;
* a method that mutates its `*Image` receiver argument returns the image after
  the call next to its Go result;
* a Go `map[string]string` is an association list with distinct keys; a `nil`
  map, slice or byte slice is identified with the empty one (the embedded code
  only takes their length, looks keys up and ranges over them);
* the order in which `range` visits a map is not fixed by Go, so it is a
  parameter (`MapOrder`) of every function that ranges over a map;
* an index expression out of range makes the Go function panic; an embedded
  function that indexes returns an `Option`, `none` standing for the panic;
* the input of a `json.Decoder` is the finite list of the JSON values waiting in
  it, each given by what `Decode` does with it; at the end of the list `Decode`
  returns `io.EOF`.
-/

set_option autoImplicit false
set_option linter.dupNamespace false

namespace Apptainer

/-! ## Go values shared by both packages -/

/-- A Go `string` or `[]byte`: a finite sequence of bytes. -/
abbrev GoString := List UInt8

/-- The bytes (UTF-8) of a string literal of the Go source. -/
def str (s : String) : GoString := s.toUTF8.data.toList

/-- The byte of the character `:`. -/
def colon : UInt8 := 58

/-- The Go `error` values the embedded functions build. `debugError` is the
string-based error type of package `image` (`debugError("...")`), `errorf` is an
error made by `fmt.Errorf` with the given text. -/
inductive GoError where
  | debugError (msg : GoString)
  | errorf (msg : GoString)
  deriving DecidableEq

/-! ## Package `image` -/

namespace image

/-- Modelled from the spec: the `Section` struct is declared in a file of package
`image` that is not part of the sources at hand. The fields are those of the data
model: type, identifier, name, allowed-usage bitset and the byte range. Fields a
composite literal leaves out take their Go zero value. The Go field `Type` is
spelled `Type_` (`Type` is reserved). -/
structure Section where
  Type_ : Nat := 0
  ID : Nat := 0
  Name : GoString := []
  AllowedUsage : Nat := 0
  Offset : Nat := 0
  Size : Nat := 0
  deriving DecidableEq

/-- Modelled from the spec: the `Image` struct is declared in a file of package
`image` that is not part of the sources at hand. The fields are those of the data
model: resolved format (`Type`, spelled `Type_`), path, file handle, writability
and the partition list. -/
structure Image where
  Type_ : Nat := 0
  Path : GoString := []
  File : Option Nat := none
  Writable : Bool := false
  Partitions : List Section := []
  deriving DecidableEq

/-- The constants of package `image` that `sandbox.go` uses and that are declared
outside the sources at hand: the format tag `SANDBOX`, the partition name `RootFs`
and the three usage flags. Their values are parameters of the embedding. -/
structure Consts where
  SANDBOX : Nat
  RootFs : GoString
  RootFsUsage : Nat
  OverlayUsage : Nat
  DataUsage : Nat
  deriving DecidableEq

/-- What `sandbox.go` reads of an `os.FileInfo`: the interface offers `Name()`,
`Size()`, `Mode()`, `ModTime()` and `IsDir()`; an implementation may answer each
independently. -/
structure FileInfo where
  Name : GoString
  Size : Int
  Mode : Nat
  ModTime : Int
  IsDir : Bool
  deriving DecidableEq

/-- `os.O_RDONLY` (package `os`, value of `syscall.O_RDONLY` on Linux). -/
def O_RDONLY : Int := 0

/-- `os.O_WRONLY` (package `os`, value of `syscall.O_WRONLY` on Linux). -/
def O_WRONLY : Int := 1

/-- `os.O_RDWR` (package `os`, value of `syscall.O_RDWR` on Linux). -/
def O_RDWR : Int := 2

/-- `func (f *sandboxFormat) initializer(img *Image, fi os.FileInfo) error`:
the image after the call, and the returned error. -/
def sandboxFormat.initializer (c : Consts) (img : Image) (fi : FileInfo) :
    Image × Option GoError :=
  if fi.IsDir then
    let img1 : Image := { img with Type_ := c.SANDBOX }
    let img2 : Image := { img1 with
      Partitions := [
        { Type_ := c.SANDBOX,
          ID := 1,
          Name := c.RootFs,
          AllowedUsage := c.RootFsUsage ||| c.OverlayUsage ||| c.DataUsage } ] }
    (img2, none)
  else
    (img, some (GoError.debugError (str "not a directory image")))

/-- `func (f *sandboxFormat) openMode(writable bool) int`. -/
def sandboxFormat.openMode (_writable : Bool) : Int :=
  O_RDONLY

/-- `func (f *sandboxFormat) lock(img *Image) error`: the image after the call,
and the returned error. -/
def sandboxFormat.lock (img : Image) : Image × Option GoError :=
  (img, none)

end image

/-! ## Package `strings` (Go standard library), as far as `definition.go` uses it -/

namespace strings

/-- `strings.HasPrefix(s, prefix)`: does `s` begin with `p`. -/
def HasPrefix : GoString → GoString → Bool
  | _, [] => true
  | [], _ :: _ => false
  | c :: s, a :: p => c == a && HasPrefix s p

/-- `strings.Index(s, substr)`: the index of the first instance of `substr` in
`s`, or `-1` if `substr` is not present in `s`. -/
def Index : GoString → GoString → Int
  | [], substr => if HasPrefix [] substr then 0 else -1
  | c :: s, substr =>
    if HasPrefix (c :: s) substr then 0
    else
      let i := Index s substr
      if i < 0 then -1 else i + 1

/-- `strings.Contains(s, substr)`, which is `Index(s, substr) >= 0`. -/
def Contains (s substr : GoString) : Bool :=
  decide (Index s substr ≥ 0)

/-- `strings.SplitN(s, sep, n)` for a non-empty separator and `n ≥ 0`: `n = 0`
gives no substrings; otherwise `s` is cut at the first instances of `sep` into at
most `n` substrings, the last one being the unsplit remainder. -/
def SplitN (s sep : GoString) : Nat → List GoString
  | 0 => []
  | 1 => [s]
  | n + 2 =>
    let m := Index s sep
    if m < 0 then [s]
    else s.take m.toNat :: SplitN (s.drop (m.toNat + sep.length)) sep (n + 1)

end strings

/-! ## Package `types` (`pkg/build/types/definition.go`) -/

namespace types

/-- A Go `map[string]string`: its entries, with distinct keys. -/
abbrev GoMap := List (GoString × GoString)

/-- An order in which a `range` statement visits the entries of a map: some
rearrangement of the entries, chosen by the Go runtime. -/
structure MapOrder where
  visit : GoMap → GoMap
  perm : ∀ m : GoMap, (visit m).Perm m

/-- The order that visits the entries as they are listed. -/
def MapOrder.listed : MapOrder := ⟨fun m => m, fun m => List.Perm.refl m⟩

/-- The order that visits the entries in the reverse of how they are listed. -/
def MapOrder.reversed : MapOrder := ⟨fun m => m.reverse, fun m => List.reverse_perm m⟩

/-- `type Script struct`. -/
structure Script where
  Args : GoString := []
  Script : GoString := []
  deriving DecidableEq

/-- `type FileTransport struct`. -/
structure FileTransport where
  Src : GoString := []
  Dst : GoString := []
  deriving DecidableEq

/-- `type Files struct`. -/
structure Files where
  Args : GoString := []
  Files : List FileTransport := []
  deriving DecidableEq

/-- `type Scripts struct`. -/
structure Scripts where
  Pre : Script := {}
  Setup : Script := {}
  Post : Script := {}
  Test : Script := {}
  deriving DecidableEq

/-- `type Data struct`; the embedded `Scripts` is the field `Scripts`. -/
structure Data where
  Files : List Files := []
  Scripts : Scripts := {}
  deriving DecidableEq

/-- `type ImageScripts struct`. -/
structure ImageScripts where
  Help : Script := {}
  Environment : Script := {}
  Runscript : Script := {}
  Test : Script := {}
  Startscript : Script := {}
  deriving DecidableEq

/-- `type ImageData struct`; the embedded `ImageScripts` is the field
`ImageScripts`. -/
structure ImageData where
  Metadata : GoString := []
  Labels : GoMap := []
  ImageScripts : ImageScripts := {}
  deriving DecidableEq

/-- `type Definition struct`; the embedded `ImageData` is the field `ImageData`.
The default value of every field is its Go zero value, so `{}` is the zero
`Definition`. -/
structure Definition where
  Header : GoMap := []
  ImageData : ImageData := {}
  BuildData : Data := {}
  CustomData : GoMap := []
  Raw : GoString := []
  AppOrder : List GoString := []
  deriving DecidableEq

/-- `func writeSectionIfExists(w io.Writer, ident string, s Script)`: `w` is what
has been written so far, the result is `w` after the call. -/
def writeSectionIfExists (w : GoString) (ident : GoString) (s : Script) : GoString :=
  if s.Script.length > 0 then
    let w1 := w ++ (str "%" ++ ident)
    let w2 := if s.Args.length > 0 then w1 ++ (str " " ++ s.Args) else w1
    w2 ++ (str "\n" ++ s.Script ++ str "\n\n")
  else
    w

/-- `func writeFilesIfExists(w io.Writer, f []Files)`. -/
def writeFilesIfExists (w : GoString) (f : List Files) : GoString :=
  f.foldl (fun w f =>
    if f.Files.length > 0 then
      let w1 := w ++ str "%files"
      let w2 := if f.Args.length > 0 then w1 ++ (str " " ++ f.Args) else w1
      let w3 := w2 ++ str "\n"
      let w4 := f.Files.foldl
        (fun w ft => w ++ (str "\t" ++ ft.Src ++ str "\t" ++ ft.Dst ++ str "\n")) w3
      w4 ++ str "\n"
    else
      w) w

/-- `func writeLabelsIfExists(w io.Writer, l map[string]string)`; `o` is the
order in which the `range` over `l` visits it. -/
def writeLabelsIfExists (o : MapOrder) (w : GoString) (l : GoMap) : GoString :=
  if l.length > 0 then
    let w1 := w ++ (str "%labels" ++ str "\n")
    let w2 := (o.visit l).foldl
      (fun w kv => w ++ (str "\t" ++ kv.1 ++ str " " ++ kv.2 ++ str "\n")) w1
    w2 ++ str "\n"
  else
    w

/-- `func populateRaw(d *Definition, w io.Writer)`; `oh` is the order in which
the `range` over `d.Header` visits it, `ol` the one of the `range` over the
labels. -/
def populateRaw (oh ol : MapOrder) (d : Definition) (w : GoString) : GoString :=
  let w1 :=
    match d.Header.lookup (str "bootstrap") with
    | some v => w ++ (str "bootstrap" ++ str ": " ++ v ++ str "\n")
    | none => w
  let w2 := (oh.visit d.Header).foldl
    (fun w kv =>
      if kv.1 = str "bootstrap" then w
      else w ++ (kv.1 ++ str ": " ++ kv.2 ++ str "\n")) w1
  let w3 := w2 ++ str "\n"
  let w4 := writeLabelsIfExists ol w3 d.ImageData.Labels
  let w5 := writeFilesIfExists w4 d.BuildData.Files
  let w6 := writeSectionIfExists w5 (str "help") d.ImageData.ImageScripts.Help
  let w7 := writeSectionIfExists w6 (str "environment") d.ImageData.ImageScripts.Environment
  let w8 := writeSectionIfExists w7 (str "runscript") d.ImageData.ImageScripts.Runscript
  let w9 := writeSectionIfExists w8 (str "test") d.ImageData.ImageScripts.Test
  let w10 := writeSectionIfExists w9 (str "startscript") d.ImageData.ImageScripts.Startscript
  let w11 := writeSectionIfExists w10 (str "pre") d.BuildData.Scripts.Pre
  let w12 := writeSectionIfExists w11 (str "setup") d.BuildData.Scripts.Setup
  writeSectionIfExists w12 (str "post") d.BuildData.Scripts.Post

/-- Lines 93 to 104 of `NewDefinitionFromURI`: from the substrings `u`, build the
definition with the header `bootstrap: u[0]`, `from: u[1]`, render it into a
fresh buffer and store the rendering in `Raw`. `none` is the panic of an index
out of range. -/
def NewDefinitionFromURI.craft (oh ol : MapOrder) (u : List GoString) :
    Option (Definition × Option GoError) :=
  match u[0]?, u[1]? with
  | some u0, some u1 =>
    let d : Definition := { Header := [(str "bootstrap", u0), (str "from", u1)] }
    let buf := populateRaw oh ol d []
    some ({ d with Raw := buf }, none)
  | _, _ => none

/-- `func NewDefinitionFromURI(uri string) (d Definition, err error)`: the pair
of results, or `none` for a panic. -/
def NewDefinitionFromURI (oh ol : MapOrder) (uri : GoString) :
    Option (Definition × Option GoError) :=
  let d : Definition := {}
  if strings.Contains uri (str "://") then
    NewDefinitionFromURI.craft oh ol (strings.SplitN uri (str "://") 2)
  else if strings.Contains uri (str ":") then
    NewDefinitionFromURI.craft oh ol (strings.SplitN uri (str ":") 2)
  else
    some (d, some (GoError.errorf (str "build URI must start with prefix:// or prefix: ")))

/-- One JSON value waiting in the input stream of a `json.Decoder`, seen through
what `decoder.Decode(&d)` does with it: the definition after the call (fields the
value names are overwritten, the others kept) and the error returned, `none` for
`nil`. Errors other than `io.EOF` are values of `ε`. `Decode` is part of the Go
standard library (`encoding/json`). -/
abbrev DecodeStep (ε : Type) := Definition → Definition × Option ε

/-- The `for` loop of `NewDefinitionFromJSON` over the values `r` still waiting
in the stream: `Decode` into `d` until the stream is exhausted (`io.EOF`, `break`)
or a `Decode` fails (`return` of the named results `d`, `err`). The result is the
definition when the loop is left and the error other than `io.EOF`, if any. -/
def NewDefinitionFromJSON.decodeAll {ε : Type} :
    List (DecodeStep ε) → Definition → Definition × Option ε
  | [], d => (d, none)
  | step :: rest, d =>
    match step d with
    | (d1, none) => NewDefinitionFromJSON.decodeAll rest d1
    | (d1, some err) => (d1, some err)

/-- `func NewDefinitionFromJSON(r io.Reader) (d Definition, err error)`, for a
reader that holds the finite stream of JSON values `r`. -/
def NewDefinitionFromJSON {ε : Type} (oh ol : MapOrder) (r : List (DecodeStep ε)) :
    Definition × Option ε :=
  match NewDefinitionFromJSON.decodeAll r {} with
  | (d, some err) => (d, some err)
  | (d, none) =>
    if d.Raw.length = 0 then
      let buf := populateRaw oh ol d []
      ({ d with Raw := buf }, none)
    else
      (d, none)

/-! ### Notions used to state the properties of the rendered text -/

/-- The byte of the newline character. -/
def newline : UInt8 := 10

/-- The header line `"k: v\n"` of a header entry, the text the format
`"%s: %s\n"` produces for it. -/
def headerLine (kv : GoString × GoString) : GoString :=
  kv.1 ++ str ": " ++ kv.2 ++ str "\n"

/-- The lines of a text: the pieces between its newline bytes. -/
def splitLines : GoString → List GoString
  | [] => [[]]
  | c :: s =>
    if c = newline then [] :: splitLines s
    else
      match splitLines s with
      | [] => [[c]]
      | l :: ls => (c :: l) :: ls

/-- The part of a text before its first blank line: the lines that precede the
first empty line, each with the newline that ends it. -/
def beforeFirstBlankLine (text : GoString) : GoString :=
  (((splitLines text).takeWhile (fun l => !l.isEmpty)).map (fun l => l ++ [newline])).flatten

end types

/-! ## Sample inputs -/

namespace image

/-- Sample constants: three single-bit usage flags and a format tag. -/
def sampleConsts : Consts :=
  { SANDBOX := 3, RootFs := str "rootfs", RootFsUsage := 1, OverlayUsage := 2, DataUsage := 4 }

/-- A regular file of 42 bytes. -/
def sampleFile : FileInfo :=
  { Name := str "image.sif", Size := 42, Mode := 420, ModTime := 0, IsDir := false }

/-- A directory. -/
def sampleDir : FileInfo :=
  { Name := str "rootfs", Size := 4096, Mode := 493, ModTime := 0, IsDir := true }

/-- Another directory, differing from `sampleDir` in everything but `IsDir`. -/
def otherDir : FileInfo :=
  { Name := str "squashfs-lookalike", Size := 0, Mode := 448, ModTime := 7, IsDir := true }

/-- An image that already carries a format tag and two partitions. -/
def sampleImage : Image :=
  { Type_ := 1, Path := str "/tmp/img", File := some 5, Writable := true,
    Partitions := [{ Type_ := 1, ID := 7, Name := str "a", AllowedUsage := 1 },
                   { Type_ := 2, ID := 7, Name := str "b", AllowedUsage := 0 }] }

/-- A freshly allocated image: every field has its zero value. -/
def zeroImage : Image := {}

end image

namespace types

/-- A definition whose `bootstrap` value holds a blank line. -/
def blankLineDefinition : Definition :=
  { Header := [(str "bootstrap", str "a\n\nb")] }

/-- A definition with three header entries, `bootstrap` not listed first, a label
and a `%post` script. -/
def sampleDefinition : Definition :=
  { Header := [(str "from", str "ubuntu"), (str "bootstrap", str "docker"),
               (str "include", str "yum")],
    ImageData := { Labels := [(str "maintainer", str "me")] },
    BuildData := { Scripts := { Post := { Script := str "echo hello" } } } }

/-- A JSON value that sets the header and leaves `raw` out. -/
def decodeHeader : DecodeStep Unit :=
  fun d => ({ d with Header := [(str "bootstrap", str "docker")] }, none)

/-- A JSON value that sets `raw`. -/
def decodeRaw : DecodeStep Unit :=
  fun d => ({ d with Raw := str "bootstrap: library\n\n" }, none)

end types

/-! ## Properties of the sandbox format (`pkg/image/sandbox.go`) -/

namespace image

/-- A bitwise "or" of three flags contains its first flag. -/
theorem or3_and_left (a b c : Nat) : (a ||| b ||| c) &&& a = a := by
  apply Nat.eq_of_testBit_eq
  intro i
  simp only [Nat.testBit_and, Nat.testBit_or]
  cases a.testBit i <;> simp

/-- A bitwise "or" of three flags contains its second flag. -/
theorem or3_and_mid (a b c : Nat) : (a ||| b ||| c) &&& b = b := by
  apply Nat.eq_of_testBit_eq
  intro i
  simp only [Nat.testBit_and, Nat.testBit_or]
  cases b.testBit i <;> simp

/-- A bitwise "or" of three flags contains its third flag. -/
theorem or3_and_right (a b c : Nat) : (a ||| b ||| c) &&& c = c := by
  apply Nat.eq_of_testBit_eq
  intro i
  simp only [Nat.testBit_and, Nat.testBit_or]
  cases c.testBit i <;> simp

/-- A bitwise "or" of three flags is non-zero as soon as the first flag is. -/
theorem or3_ne_zero (a b c : Nat) (h : a ≠ 0) : a ||| b ||| c ≠ 0 := by
  intro h0
  have h1 := or3_and_left a b c
  rw [h0, Nat.zero_and] at h1
  exact h h1.symm

/-- C1: `sandboxFormat.initializer(img, fi)` returns `nil` exactly when
`fi.IsDir()` is true, and when `fi` is not a directory it returns
`debugError("not a directory image")`. -/
theorem initializer_nil_iff_isDir (c : Consts) (img : Image) (fi : FileInfo) :
    ((sandboxFormat.initializer c img fi).2 = none ↔ fi.IsDir = true) ∧
    (fi.IsDir = false →
      (sandboxFormat.initializer c img fi).2 =
        some (GoError.debugError (str "not a directory image"))) := by
  cases h : fi.IsDir <;> simp [sandboxFormat.initializer, h]

/-- C1 at a regular file: the call is rejected with the mismatch error. -/
theorem initializer_nil_iff_isDir_witness :
    sampleFile.IsDir = false ∧
    (sandboxFormat.initializer sampleConsts sampleImage sampleFile).2 =
      some (GoError.debugError (str "not a directory image")) :=
  ⟨rfl, (initializer_nil_iff_isDir sampleConsts sampleImage sampleFile).2 rfl⟩

/-- C2: when `fi.IsDir()` is true, after `sandboxFormat.initializer(img, fi)` the
partitions of the image are exactly the one section
`{Type: SANDBOX, ID: 1, Name: RootFs, AllowedUsage: RootFsUsage|OverlayUsage|DataUsage}`,
whatever partitions the image had before; the identifiers in the list are positive
and pairwise distinct. -/
theorem initializer_partitions (c : Consts) (img : Image) (fi : FileInfo)
    (hdir : fi.IsDir = true) :
    (sandboxFormat.initializer c img fi).1.Partitions =
      [{ Type_ := c.SANDBOX, ID := 1, Name := c.RootFs,
         AllowedUsage := c.RootFsUsage ||| c.OverlayUsage ||| c.DataUsage,
         Offset := 0, Size := 0 }] ∧
    (∀ s ∈ (sandboxFormat.initializer c img fi).1.Partitions, 0 < s.ID) ∧
    ((sandboxFormat.initializer c img fi).1.Partitions.map Section.ID).Nodup := by
  simp [sandboxFormat.initializer, hdir]

/-- C2 at an image that already had two partitions: they are replaced. -/
theorem initializer_partitions_witness :
    sampleImage.Partitions.length = 2 ∧
    (sandboxFormat.initializer sampleConsts sampleImage sampleDir).1.Partitions =
      [{ Type_ := 3, ID := 1, Name := str "rootfs", AllowedUsage := 7 }] :=
  ⟨rfl, (initializer_partitions sampleConsts sampleImage sampleDir rfl).1⟩

/-- C3: `sandboxFormat.openMode(writable)` is `os.O_RDONLY` for either value of
`writable`, and the result has neither of the write flags `os.O_WRONLY`,
`os.O_RDWR` set. The function has a single `int` result, so it has no way of
signalling an error. -/
theorem openMode_rdonly (writable : Bool) :
    sandboxFormat.openMode writable = O_RDONLY ∧
    sandboxFormat.openMode true = sandboxFormat.openMode false ∧
    Int.land (sandboxFormat.openMode writable) (Int.lor O_WRONLY O_RDWR) = 0 :=
  ⟨rfl, rfl, rfl⟩

/-- C4: when `fi` is not a directory, `sandboxFormat.initializer(img, fi)` leaves
the image exactly as it was. -/
theorem initializer_reject_unchanged (c : Consts) (img : Image) (fi : FileInfo)
    (hfile : fi.IsDir = false) :
    (sandboxFormat.initializer c img fi).1 = img := by
  simp [sandboxFormat.initializer, hfile]

/-- C4 at a regular file and an image with a tag and partitions. -/
theorem initializer_reject_unchanged_witness :
    sampleFile.IsDir = false ∧
    (sandboxFormat.initializer sampleConsts sampleImage sampleFile).1 = sampleImage :=
  ⟨rfl, initializer_reject_unchanged sampleConsts sampleImage sampleFile rfl⟩

/-- C5: `sandboxFormat.lock(img)` returns `nil` and leaves the image unchanged,
for every image. -/
theorem lock_noop (img : Image) :
    (sandboxFormat.lock img).2 = none ∧ (sandboxFormat.lock img).1 = img :=
  ⟨rfl, rfl⟩

/-- C6: for a directory, `sandboxFormat.initializer` places a section in the
partitions of the image (the list is not empty: it is the one section whose
`AllowedUsage` is `RootFsUsage|OverlayUsage|DataUsage`), and every section it
places has a non-zero `AllowedUsage` that contains each of `RootFsUsage`,
`OverlayUsage` and `DataUsage`. The flags are declared outside the sources at
hand; that `RootFsUsage` is a flag with a bit set is assumed. -/
theorem initializer_allowedUsage (c : Consts) (img : Image) (fi : FileInfo)
    (hflag : c.RootFsUsage ≠ 0) (hdir : fi.IsDir = true) :
    (sandboxFormat.initializer c img fi).1.Partitions ≠ [] ∧
    (∃ s, (sandboxFormat.initializer c img fi).1.Partitions = [s] ∧
      s.AllowedUsage = c.RootFsUsage ||| c.OverlayUsage ||| c.DataUsage) ∧
    ∀ s ∈ (sandboxFormat.initializer c img fi).1.Partitions,
      s.AllowedUsage ≠ 0 ∧
      s.AllowedUsage &&& c.RootFsUsage = c.RootFsUsage ∧
      s.AllowedUsage &&& c.OverlayUsage = c.OverlayUsage ∧
      s.AllowedUsage &&& c.DataUsage = c.DataUsage := by
  refine ⟨?_, ?_, ?_⟩
  · simp [sandboxFormat.initializer, hdir]
  · have hp : (sandboxFormat.initializer c img fi).1.Partitions =
        [Section.mk c.SANDBOX 1 c.RootFs (c.RootFsUsage ||| c.OverlayUsage ||| c.DataUsage)
          0 0] := by
      simp only [sandboxFormat.initializer, hdir, if_true]
    exact ⟨_, hp, rfl⟩
  · intro s hs
    simp only [sandboxFormat.initializer, hdir, if_true, List.mem_singleton] at hs
    subst hs
    exact ⟨or3_ne_zero _ _ _ hflag, or3_and_left _ _ _, or3_and_mid _ _ _,
      or3_and_right _ _ _⟩

/-- C6 at single-bit flags 1, 2, 4 and an image whose old sections had usage 1
and 0: the partitions become the one section of usage 7, which is non-zero and
contains the flags 1, 2 and 4. -/
theorem initializer_allowedUsage_witness :
    sampleConsts.RootFsUsage ≠ 0 ∧ sampleDir.IsDir = true ∧
    (sandboxFormat.initializer sampleConsts sampleImage sampleDir).1.Partitions =
      [{ Type_ := 3, ID := 1, Name := str "rootfs", AllowedUsage := 7 }] ∧
    (sandboxFormat.initializer sampleConsts sampleImage sampleDir).1.Partitions ≠ [] ∧
    ((7 : Nat) ≠ 0 ∧ (7 : Nat) &&& 1 = 1 ∧ (7 : Nat) &&& 2 = 2 ∧ (7 : Nat) &&& 4 = 4) :=
  ⟨by decide, rfl, rfl,
    (initializer_allowedUsage sampleConsts sampleImage sampleDir (by decide) rfl).1,
    (initializer_allowedUsage sampleConsts sampleImage sampleDir (by decide) rfl).2.2
      { Type_ := 3, ID := 1, Name := str "rootfs", AllowedUsage := 7 }
      (List.mem_singleton.2 rfl)⟩

/-- C7: if `sandboxFormat.initializer(img, fi)` returns `nil`, then afterwards the
type of the image is `SANDBOX` and every section of its partitions records the
same type as the image. -/
theorem initializer_type_agrees (c : Consts) (img : Image) (fi : FileInfo)
    (hnil : (sandboxFormat.initializer c img fi).2 = none) :
    (sandboxFormat.initializer c img fi).1.Type_ = c.SANDBOX ∧
    ∀ s ∈ (sandboxFormat.initializer c img fi).1.Partitions,
      s.Type_ = (sandboxFormat.initializer c img fi).1.Type_ := by
  cases h : fi.IsDir
  · simp [sandboxFormat.initializer, h] at hnil
  · simp [sandboxFormat.initializer, h]

/-- C7 at a directory and an image whose old sections disagreed with its type. -/
theorem initializer_type_agrees_witness :
    (sandboxFormat.initializer sampleConsts sampleImage sampleDir).2 = none ∧
    (sandboxFormat.initializer sampleConsts sampleImage sampleDir).1.Type_ = 3 ∧
    ∀ s ∈ (sandboxFormat.initializer sampleConsts sampleImage sampleDir).1.Partitions,
      s.Type_ = (sandboxFormat.initializer sampleConsts sampleImage sampleDir).1.Type_ :=
  ⟨rfl, initializer_type_agrees sampleConsts sampleImage sampleDir rfl⟩

/-- C8 as stated fails: for one and the same regular file and two starting images
of different type, the resulting types differ, because a rejected image keeps the
type it had. -/
theorem initializer_outcome_counterexample :
    ¬ (∀ (c : Consts) (img1 img2 : Image) (fi1 fi2 : FileInfo),
        fi1.IsDir = fi2.IsDir →
        (sandboxFormat.initializer c img1 fi1).2 = (sandboxFormat.initializer c img2 fi2).2 ∧
        (sandboxFormat.initializer c img1 fi1).1.Type_ =
          (sandboxFormat.initializer c img2 fi2).1.Type_ ∧
        (sandboxFormat.initializer c img1 fi1).1.Partitions =
          (sandboxFormat.initializer c img2 fi2).1.Partitions) := by
  intro h
  have h1 := (h sampleConsts sampleImage zeroImage sampleFile sampleFile rfl).2.1
  revert h1
  decide

/-- C8 amended: for two file-infos that agree on `IsDir()`, the returned errors
are equal for any two starting images. When the file-infos are directories, the
resulting types (`SANDBOX`) and partitions are equal whatever the starting images
were. When they are not directories, each image is left exactly as it was, so the
resulting types and partitions are equal if and only if the two starting images
agreed on them. In either case, starting images that agree on type and partitions
give results that agree on them. -/
theorem initializer_depends_on_isDir (c : Consts) (img1 img2 : Image) (fi1 fi2 : FileInfo)
    (hsame : fi1.IsDir = fi2.IsDir) :
    (sandboxFormat.initializer c img1 fi1).2 = (sandboxFormat.initializer c img2 fi2).2 ∧
    (fi1.IsDir = true →
      (sandboxFormat.initializer c img1 fi1).1.Type_ = c.SANDBOX ∧
      (sandboxFormat.initializer c img1 fi1).1.Type_ =
        (sandboxFormat.initializer c img2 fi2).1.Type_ ∧
      (sandboxFormat.initializer c img1 fi1).1.Partitions =
        (sandboxFormat.initializer c img2 fi2).1.Partitions) ∧
    (fi1.IsDir = false →
      (sandboxFormat.initializer c img1 fi1).1 = img1 ∧
      (sandboxFormat.initializer c img2 fi2).1 = img2 ∧
      (((sandboxFormat.initializer c img1 fi1).1.Type_ =
          (sandboxFormat.initializer c img2 fi2).1.Type_ ∧
        (sandboxFormat.initializer c img1 fi1).1.Partitions =
          (sandboxFormat.initializer c img2 fi2).1.Partitions) ↔
        (img1.Type_ = img2.Type_ ∧ img1.Partitions = img2.Partitions))) ∧
    (img1.Type_ = img2.Type_ → img1.Partitions = img2.Partitions →
      (sandboxFormat.initializer c img1 fi1).1.Type_ =
        (sandboxFormat.initializer c img2 fi2).1.Type_ ∧
      (sandboxFormat.initializer c img1 fi1).1.Partitions =
        (sandboxFormat.initializer c img2 fi2).1.Partitions) := by
  cases h1 : fi1.IsDir <;>
    simp_all [sandboxFormat.initializer, ← hsame]

/-- C8 amended, at two different directories and two different starting images
(both are classified as `SANDBOX` with equal partitions), and at a regular file
and the same two starting images (each is left as it was, and the resulting
types differ as the starting types did). -/
theorem initializer_depends_on_isDir_witness :
    (sampleDir.IsDir = otherDir.IsDir ∧ sampleDir ≠ otherDir ∧ sampleImage ≠ zeroImage ∧
      (sandboxFormat.initializer sampleConsts sampleImage sampleDir).1.Type_ = 3 ∧
      (sandboxFormat.initializer sampleConsts sampleImage sampleDir).1.Type_ =
        (sandboxFormat.initializer sampleConsts zeroImage otherDir).1.Type_ ∧
      (sandboxFormat.initializer sampleConsts sampleImage sampleDir).1.Partitions =
        (sandboxFormat.initializer sampleConsts zeroImage otherDir).1.Partitions) ∧
    (sampleFile.IsDir = false ∧
      (sandboxFormat.initializer sampleConsts sampleImage sampleFile).1 = sampleImage ∧
      (sandboxFormat.initializer sampleConsts zeroImage sampleFile).1 = zeroImage ∧
      ¬ ((sandboxFormat.initializer sampleConsts sampleImage sampleFile).1.Type_ =
          (sandboxFormat.initializer sampleConsts zeroImage sampleFile).1.Type_ ∧
        (sandboxFormat.initializer sampleConsts sampleImage sampleFile).1.Partitions =
          (sandboxFormat.initializer sampleConsts zeroImage sampleFile).1.Partitions)) :=
  ⟨⟨rfl, by decide, by decide,
      (initializer_depends_on_isDir sampleConsts sampleImage zeroImage sampleDir otherDir
        rfl).2.1 rfl⟩,
    rfl,
    ((initializer_depends_on_isDir sampleConsts sampleImage zeroImage sampleFile sampleFile
        rfl).2.2.1 rfl).1,
    ((initializer_depends_on_isDir sampleConsts sampleImage zeroImage sampleFile sampleFile
        rfl).2.2.1 rfl).2.1,
    fun h =>
      absurd
        ((((initializer_depends_on_isDir sampleConsts sampleImage zeroImage sampleFile
          sampleFile rfl).2.2.1 rfl).2.2).1 h)
        (by decide)⟩

end image

/-! ## Properties of `NewDefinitionFromURI` (`pkg/build/types/definition.go`) -/

namespace strings

/-- The separator `":"` is the single byte `colon`. -/
theorem str_colon : str ":" = [colon] := rfl

/-- The separator `"://"` begins with the byte `colon`. -/
theorem str_sep : str "://" = [colon, 47, 47] := rfl

/-- `Index` is `-1` or a position. -/
theorem Index_ge (s substr : GoString) : -1 ≤ Index s substr := by
  induction s with
  | nil => unfold Index; split <;> omega
  | cons c s ih => unfold Index; split <;> [omega; (simp only []; split <;> omega)]

/-- If `substr` occurs in `s`, its first byte is a byte of `s`. -/
theorem mem_of_Index_nonneg (a : UInt8) (p : GoString) (s : GoString)
    (h : 0 ≤ Index s (a :: p)) : a ∈ s := by
  induction s with
  | nil => simp [Index, HasPrefix] at h
  | cons c s ih =>
    unfold Index at h
    split at h
    · rename_i hp
      simp [HasPrefix] at hp
      simp [hp.1]
    · simp only [] at h
      split at h
      · omega
      · exact List.mem_cons_of_mem _ (ih (by omega))

/-- A byte of `s` occurs in `s` as a one-byte substring. -/
theorem Index_singleton_nonneg (a : UInt8) (s : GoString) (h : a ∈ s) :
    0 ≤ Index s [a] := by
  induction s with
  | nil => simp at h
  | cons c s ih =>
    unfold Index
    split
    · omega
    · rename_i hp
      simp [HasPrefix] at hp
      have hs : a ∈ s := by
        rcases List.mem_cons.1 h with h1 | h1
        · exact absurd h1.symm hp
        · exact h1
      have := ih hs
      simp only []
      split <;> omega

/-- `Contains` holds exactly when `Index` is a position. -/
theorem Contains_iff (s substr : GoString) : Contains s substr = true ↔ 0 ≤ Index s substr := by
  simp [Contains]

/-- `strings.Contains(s, ":")` holds exactly when `:` is one of the bytes of `s`. -/
theorem Contains_colon_iff (s : GoString) : Contains s (str ":") = true ↔ colon ∈ s := by
  rw [Contains_iff, str_colon]
  exact ⟨mem_of_Index_nonneg colon [] s, Index_singleton_nonneg colon s⟩

/-- A string that contains `"://"` has `:` among its bytes. -/
theorem mem_colon_of_Contains_sep (s : GoString) (h : Contains s (str "://") = true) :
    colon ∈ s := by
  rw [Contains_iff, str_sep] at h
  exact mem_of_Index_nonneg colon _ s h

/-- `SplitN(s, sep, 2)` of a string that contains `sep`: the part before the first
instance of `sep` and the part after it. -/
theorem SplitN_two (s sep : GoString) (h : Contains s sep = true) :
    SplitN s sep 2 =
      [s.take (Index s sep).toNat, s.drop ((Index s sep).toNat + sep.length)] := by
  rw [Contains_iff] at h
  simp [SplitN, Int.not_lt.2 h]

end strings

namespace types
open strings

/-- With two substrings at hand no index is out of range, and the definition
built has exactly the header and the rendering of it. -/
theorem craft_pair (oh ol : MapOrder) (a b : GoString) :
    NewDefinitionFromURI.craft oh ol [a, b] =
      some ({ Header := [(str "bootstrap", a), (str "from", b)],
              Raw := populateRaw oh ol
                { Header := [(str "bootstrap", a), (str "from", b)] } [] }, none) := rfl

/-- The branch of `NewDefinitionFromURI` taken when the uri contains `"://"`. -/
theorem NewDefinitionFromURI_of_sep (oh ol : MapOrder) (uri : GoString)
    (h : Contains uri (str "://") = true) :
    NewDefinitionFromURI oh ol uri =
      NewDefinitionFromURI.craft oh ol
        [uri.take (Index uri (str "://")).toNat,
         uri.drop ((Index uri (str "://")).toNat + (str "://").length)] := by
  simp only [NewDefinitionFromURI, h, if_true, SplitN_two uri _ h]

/-- The branch of `NewDefinitionFromURI` taken when the uri contains `":"` but
not `"://"`. -/
theorem NewDefinitionFromURI_of_colon (oh ol : MapOrder) (uri : GoString)
    (h3 : Contains uri (str "://") = false) (h : Contains uri (str ":") = true) :
    NewDefinitionFromURI oh ol uri =
      NewDefinitionFromURI.craft oh ol
        [uri.take (Index uri (str ":")).toNat,
         uri.drop ((Index uri (str ":")).toNat + (str ":").length)] := by
  simp only [NewDefinitionFromURI, h3, h, if_true, SplitN_two uri _ h]
  simp

/-- The branch of `NewDefinitionFromURI` taken when the uri contains no `":"`. -/
theorem NewDefinitionFromURI_of_none (oh ol : MapOrder) (uri : GoString)
    (h : Contains uri (str ":") = false) :
    NewDefinitionFromURI oh ol uri =
      some ({}, some (GoError.errorf (str "build URI must start with prefix:// or prefix: "))) := by
  have h3 : Contains uri (str "://") = false := by
    cases h' : Contains uri (str "://")
    · rfl
    · have := (Contains_colon_iff uri).2 (mem_colon_of_Contains_sep uri h')
      simp [h] at this
  simp [NewDefinitionFromURI, h3, h]

/-- C9: `NewDefinitionFromURI(uri)` returns (it does not panic), and its error is
non-nil exactly when `uri` has no `:` among its bytes; on error the returned
`Definition` is the zero value; when `uri` has a `:` the error is nil; and a uri
that contains `"://"` has a `:`. -/
theorem NewDefinitionFromURI_error_iff (oh ol : MapOrder) (uri : GoString) :
    ∃ d err, NewDefinitionFromURI oh ol uri = some (d, err) ∧
      (err ≠ none ↔ colon ∉ uri) ∧
      (err ≠ none → d = {}) ∧
      (colon ∈ uri → err = none) ∧
      (Contains uri (str "://") = true → colon ∈ uri) := by
  cases h3 : Contains uri (str "://")
  · cases h1 : Contains uri (str ":")
    · have hc : colon ∉ uri := by
        rw [← Contains_colon_iff, h1]; simp
      exact ⟨_, _, NewDefinitionFromURI_of_none oh ol uri h1, by simp [hc], fun _ => rfl,
        fun h => absurd h hc, by simp⟩
    · have hc : colon ∈ uri := (Contains_colon_iff uri).1 h1
      refine ⟨_, _, (NewDefinitionFromURI_of_colon oh ol uri h3 h1).trans (craft_pair _ _ _ _),
        by simp [hc], by simp, fun _ => rfl, by simp⟩
  · have hc : colon ∈ uri := mem_colon_of_Contains_sep uri h3
    refine ⟨_, _, (NewDefinitionFromURI_of_sep oh ol uri h3).trans (craft_pair _ _ _ _),
      by simp [hc], by simp, fun _ => rfl, fun _ => hc⟩

/-- C9 at `"ubuntu"` (no `:`; error and zero value) and at `"docker://ubuntu"`
(contains `"://"`; no error). -/
theorem NewDefinitionFromURI_error_iff_witness :
    (∃ d err, NewDefinitionFromURI MapOrder.listed MapOrder.listed (str "ubuntu") =
        some (d, err) ∧ err ≠ none ∧ d = {}) ∧
    (∃ d err, NewDefinitionFromURI MapOrder.listed MapOrder.listed (str "docker://ubuntu") =
        some (d, err) ∧ colon ∈ str "docker://ubuntu" ∧ err = none) := by
  constructor
  · obtain ⟨d, err, h, hiff, hzero, _, _⟩ :=
      NewDefinitionFromURI_error_iff MapOrder.listed MapOrder.listed (str "ubuntu")
    have hne : err ≠ none := hiff.2 (by decide)
    exact ⟨d, err, h, hne, hzero hne⟩
  · obtain ⟨d, err, h, _, _, hnil, hsep⟩ :=
      NewDefinitionFromURI_error_iff MapOrder.listed MapOrder.listed (str "docker://ubuntu")
    have hc : colon ∈ str "docker://ubuntu" := hsep (by decide)
    exact ⟨d, err, h, hc, hnil hc⟩

/-- C10, the code at the inputs `":ubuntu"` and `"://ubuntu"`: for every iteration
order, `NewDefinitionFromURI` succeeds (nil error) and the `bootstrap` entry of
the returned header is the empty string, although neither uri starts with a
prefix. -/
theorem NewDefinitionFromURI_empty_bootstrap (oh ol : MapOrder) :
    (∃ d, NewDefinitionFromURI oh ol (str ":ubuntu") = some (d, none) ∧
      d.Header = [(str "bootstrap", []), (str "from", str "ubuntu")] ∧
      d.Header.lookup (str "bootstrap") = some []) ∧
    (∃ d, NewDefinitionFromURI oh ol (str "://ubuntu") = some (d, none) ∧
      d.Header = [(str "bootstrap", []), (str "from", str "ubuntu")] ∧
      d.Header.lookup (str "bootstrap") = some []) := by
  constructor
  · exact ⟨_, (NewDefinitionFromURI_of_colon oh ol _ (by decide) (by decide)).trans
      (craft_pair _ _ _ _), rfl, rfl⟩
  · exact ⟨_, (NewDefinitionFromURI_of_sep oh ol _ (by decide)).trans
      (craft_pair _ _ _ _), rfl, rfl⟩

end types

/-! ## Properties of the splitting, of `populateRaw` and of `NewDefinitionFromJSON` -/

namespace strings

/-- `HasPrefix s p` holds exactly when `p` is an initial segment of `s`. -/
theorem HasPrefix_iff (s p : GoString) : HasPrefix s p = true ↔ p <+: s := by
  induction p generalizing s with
  | nil => simp [HasPrefix]
  | cons a p ih =>
    cases s with
    | nil => simp [HasPrefix]
    | cons c s =>
      simp only [HasPrefix, Bool.and_eq_true, beq_iff_eq, ih, List.cons_prefix_cons]
      constructor
      · rintro ⟨h1, h2⟩; exact ⟨h1.symm, h2⟩
      · rintro ⟨h1, h2⟩; exact ⟨h1.symm, h2⟩

/-- `Index` at a string that begins with `substr`. -/
theorem Index_cons_of_HasPrefix (c : UInt8) (s substr : GoString)
    (hp : HasPrefix (c :: s) substr = true) : Index (c :: s) substr = 0 := by
  simp [Index, hp]

/-- `Index` at a string that does not begin with `substr` and whose tail does not
contain it. -/
theorem Index_cons_of_neg (c : UInt8) (s substr : GoString)
    (hp : HasPrefix (c :: s) substr = false) (hneg : Index s substr < 0) :
    Index (c :: s) substr = -1 := by
  simp [Index, hp, hneg]

/-- `Index` at a string that does not begin with `substr` and whose tail
contains it. -/
theorem Index_cons_of_nonneg (c : UInt8) (s substr : GoString)
    (hp : HasPrefix (c :: s) substr = false) (h0 : 0 ≤ Index s substr) :
    Index (c :: s) substr = Index s substr + 1 := by
  simp [Index, hp, Int.not_lt.2 h0]

/-- `Index` at the empty string, for a non-empty `substr`. -/
theorem Index_nil_of_ne (substr : GoString) (h : substr ≠ []) : Index [] substr = -1 := by
  cases substr with
  | nil => exact absurd rfl h
  | cons a p => simp [Index, HasPrefix]

/-- `Index s substr` is a position exactly when `substr` occurs in `s` as a
contiguous piece. -/
theorem Index_nonneg_iff (s substr : GoString) : 0 ≤ Index s substr ↔ substr <:+: s := by
  induction s with
  | nil =>
    by_cases h : substr = []
    · subst h; simp [Index, HasPrefix]
    · rw [Index_nil_of_ne _ h, List.infix_nil]; simp [h]
  | cons c s ih =>
    rw [List.infix_cons_iff, ← ih, ← HasPrefix_iff]
    cases hp : HasPrefix (c :: s) substr
    · by_cases hneg : Index s substr < 0
      · rw [Index_cons_of_neg c s substr hp hneg]
        simp; omega
      · have h0 : 0 ≤ Index s substr := by omega
        rw [Index_cons_of_nonneg c s substr hp h0]
        simp; omega
    · rw [Index_cons_of_HasPrefix c s substr hp]; simp

/-- `strings.Contains(s, substr)` holds exactly when `substr` occurs in `s`. -/
theorem Contains_iff_occurs (s substr : GoString) :
    Contains s substr = true ↔ substr <:+: s := by
  rw [Contains_iff, Index_nonneg_iff]

/-- Cutting `s` at the first instance of `sep` loses nothing: the part before
it, `sep` and the part after it make up `s`. -/
theorem Index_split (s sep : GoString) (h : 0 ≤ Index s sep) :
    s.take (Index s sep).toNat ++ (sep ++ s.drop ((Index s sep).toNat + sep.length)) = s := by
  induction s with
  | nil =>
    have hp : sep <:+: [] := (Index_nonneg_iff _ _).1 h
    rw [List.infix_nil] at hp
    simp [hp]
  | cons c s ih =>
    cases hp : HasPrefix (c :: s) sep
    · by_cases hneg : Index s sep < 0
      · rw [Index_cons_of_neg c s sep hp hneg] at h; omega
      · have h0 : 0 ≤ Index s sep := by omega
        have e1 : (Index s sep + 1).toNat = (Index s sep).toNat + 1 := by omega
        rw [Index_cons_of_nonneg c s sep hp h0, e1, List.take_succ_cons, Nat.add_right_comm,
          List.drop_succ_cons, List.cons_append, ih h0]
    · rw [Index_cons_of_HasPrefix c s sep hp]
      obtain ⟨t, ht⟩ := (HasPrefix_iff _ _).1 hp
      rw [← ht]; simp

/-- An initial segment of a prefix of `s` is an initial segment of `s`. -/
theorem HasPrefix_of_take (s p : GoString) (n : Nat) (h : HasPrefix (s.take n) p = true) :
    HasPrefix s p = true := by
  rw [HasPrefix_iff] at h ⊢
  exact h.trans (List.take_prefix n s)

/-- The cut is at the first instance: a non-empty `sep` does not occur in the
part of `s` before the position `Index s sep`. -/
theorem Index_take_neg (s sep : GoString) (hsep : sep ≠ []) (h : 0 ≤ Index s sep) :
    Index (s.take (Index s sep).toNat) sep < 0 := by
  have hnil : Index [] sep < 0 := by rw [Index_nil_of_ne _ hsep]; omega
  induction s with
  | nil => simpa using hnil
  | cons c s ih =>
    cases hp : HasPrefix (c :: s) sep
    · by_cases hneg : Index s sep < 0
      · rw [Index_cons_of_neg c s sep hp hneg] at h; omega
      · have h0 : 0 ≤ Index s sep := by omega
        have e1 : (Index s sep + 1).toNat = (Index s sep).toNat + 1 := by omega
        rw [Index_cons_of_nonneg c s sep hp h0, e1, List.take_succ_cons]
        have hp2 : HasPrefix (c :: s.take (Index s sep).toNat) sep = false := by
          cases hc : HasPrefix (c :: s.take (Index s sep).toNat) sep
          · rfl
          · have := HasPrefix_of_take (c :: s) sep ((Index s sep).toNat + 1)
            rw [List.take_succ_cons] at this
            rw [this hc] at hp
            exact absurd hp (by simp)
        rw [Index_cons_of_neg _ _ _ hp2 (ih h0)]
        omega
    · rw [Index_cons_of_HasPrefix c s sep hp]
      simpa using hnil

end strings

namespace types
open strings

/-- The literal `"\n"` is the single newline byte. -/
theorem str_newline : str "\n" = [newline] := rfl

/-- `writeSectionIfExists` only appends to what has been written. -/
theorem writeSectionIfExists_extends (w ident : GoString) (s : Script) :
    w <+: writeSectionIfExists w ident s := by
  unfold writeSectionIfExists
  split
  · refine List.IsPrefix.trans ?_ (List.prefix_append _ _)
    split
    · exact (List.prefix_append _ _).trans (List.prefix_append _ _)
    · exact List.prefix_append _ _
  · exact List.prefix_refl w

/-- A loop whose body only appends only appends. -/
theorem foldl_extends {α : Type} (f : GoString → α → GoString)
    (hf : ∀ w a, w <+: f w a) (l : List α) (w : GoString) : w <+: l.foldl f w := by
  induction l generalizing w with
  | nil => exact List.prefix_refl w
  | cons a l ih => exact (hf w a).trans (ih (f w a))

/-- `writeFilesIfExists` only appends to what has been written. -/
theorem writeFilesIfExists_extends (w : GoString) (f : List Files) :
    w <+: writeFilesIfExists w f := by
  unfold writeFilesIfExists
  apply foldl_extends
  intro w a
  split
  · refine List.IsPrefix.trans ?_ (List.prefix_append _ _)
    refine List.IsPrefix.trans ?_ (foldl_extends _ (fun w ft => List.prefix_append _ _) _ _)
    refine List.IsPrefix.trans ?_ (List.prefix_append _ _)
    split
    · exact (List.prefix_append _ _).trans (List.prefix_append _ _)
    · exact List.prefix_append _ _
  · exact List.prefix_refl w

/-- `writeLabelsIfExists` only appends to what has been written. -/
theorem writeLabelsIfExists_extends (o : MapOrder) (w : GoString) (l : GoMap) :
    w <+: writeLabelsIfExists o w l := by
  unfold writeLabelsIfExists
  split
  · refine List.IsPrefix.trans ?_ (List.prefix_append _ _)
    refine List.IsPrefix.trans ?_ (foldl_extends _ (fun w kv => List.prefix_append _ _) _ _)
    exact List.prefix_append _ _
  · exact List.prefix_refl w

/-- The loop of `populateRaw` over the header writes, after what was written
before, the header lines of the visited entries other than `bootstrap`, in the
order of the visit. -/
theorem foldl_headerLines (l : GoMap) (w : GoString) :
    l.foldl (fun w kv =>
      if kv.1 = str "bootstrap" then w
      else w ++ (kv.1 ++ str ": " ++ kv.2 ++ str "\n")) w =
    w ++ ((l.filter (fun kv => decide (kv.1 ≠ str "bootstrap"))).map headerLine).flatten := by
  induction l generalizing w with
  | nil => simp
  | cons kv l ih =>
    rw [List.foldl_cons, ih]
    by_cases hk : kv.1 = str "bootstrap"
    · simp [hk]
    · simp [hk, headerLine]

/-- What `populateRaw` writes: the header block (the `bootstrap` line, if the
key is present, and the lines of the loop), the newline of `fmt.Fprintln(w)`,
and then whatever the label, file and script sections add. -/
theorem populateRaw_shape (oh ol : MapOrder) (d : Definition) (w : GoString) :
    ∃ tail, populateRaw oh ol d w =
      (match d.Header.lookup (str "bootstrap") with
        | some v => w ++ headerLine (str "bootstrap", v)
        | none => w) ++
      (((oh.visit d.Header).filter (fun kv => decide (kv.1 ≠ str "bootstrap"))).map
        headerLine).flatten ++ str "\n" ++ tail := by
  have hp : ((match d.Header.lookup (str "bootstrap") with
        | some v => w ++ headerLine (str "bootstrap", v)
        | none => w) ++
      (((oh.visit d.Header).filter (fun kv => decide (kv.1 ≠ str "bootstrap"))).map
        headerLine).flatten ++ str "\n") <+: populateRaw oh ol d w := by
    unfold populateRaw
    simp only [foldl_headerLines]
    refine List.IsPrefix.trans ?_ (writeSectionIfExists_extends _ _ _)
    refine List.IsPrefix.trans ?_ (writeSectionIfExists_extends _ _ _)
    refine List.IsPrefix.trans ?_ (writeSectionIfExists_extends _ _ _)
    refine List.IsPrefix.trans ?_ (writeSectionIfExists_extends _ _ _)
    refine List.IsPrefix.trans ?_ (writeSectionIfExists_extends _ _ _)
    refine List.IsPrefix.trans ?_ (writeSectionIfExists_extends _ _ _)
    refine List.IsPrefix.trans ?_ (writeSectionIfExists_extends _ _ _)
    refine List.IsPrefix.trans ?_ (writeSectionIfExists_extends _ _ _)
    refine List.IsPrefix.trans ?_ (writeFilesIfExists_extends _ _)
    refine List.IsPrefix.trans ?_ (writeLabelsIfExists_extends _ _ _)
    exact List.prefix_refl _
  obtain ⟨tail, ht⟩ := hp
  exact ⟨tail, ht.symm⟩

/-- `populateRaw` into a fresh buffer writes at least one byte. -/
theorem populateRaw_length_pos (oh ol : MapOrder) (d : Definition) :
    0 < (populateRaw oh ol d []).length := by
  obtain ⟨tail, ht⟩ := populateRaw_shape oh ol d []
  rw [ht, str_newline]
  simp

/-- A map with distinct keys that holds `k ↦ v` is, up to the order of its
entries, that entry followed by the entries of the other keys. -/
theorem perm_cons_filter_of_lookup (k v : GoString) (m : GoMap)
    (hnodup : (m.map Prod.fst).Nodup) (hk : m.lookup k = some v) :
    ((k, v) :: m.filter (fun kv => decide (kv.1 ≠ k))).Perm m := by
  induction m with
  | nil => simp at hk
  | cons e m ih =>
    obtain ⟨k1, v1⟩ := e
    rw [List.map_cons, List.nodup_cons] at hnodup
    by_cases hkk : k = k1
    · subst hkk
      have hv : v1 = v := by simpa [List.lookup] using hk
      subst hv
      have hfil : m.filter (fun kv => decide (kv.1 ≠ k)) = m := by
        rw [List.filter_eq_self]
        intro kv hkv
        have : kv.1 ≠ k := by
          intro he
          have hmem : kv.1 ∈ m.map Prod.fst := List.mem_map_of_mem Prod.fst hkv
          rw [he] at hmem
          exact hnodup.1 hmem
        simpa using this
      have hcons : List.filter (fun kv => decide (kv.1 ≠ k)) ((k, v1) :: m) =
          m.filter (fun kv => decide (kv.1 ≠ k)) := by
        simp [List.filter_cons]
      rw [hcons, hfil]
    · have hk2 : m.lookup k = some v := by
        have hne : (k == k1) = false := by simpa using hkk
        simpa [List.lookup, hne] using hk
      have hne : k1 ≠ k := fun h => hkk h.symm
      have hfil : List.filter (fun kv => decide (kv.1 ≠ k)) ((k1, v1) :: m) =
          (k1, v1) :: m.filter (fun kv => decide (kv.1 ≠ k)) := by
        simp [List.filter_cons, hne]
      rw [hfil]
      exact (List.Perm.swap (k1, v1) (k, v) _).trans ((ih hnodup.2 hk2).cons (k1, v1))

/-- A text that begins with a line free of newline bytes: its lines are that
line and the lines of what follows the newline. -/
theorem splitLines_append (l rest : GoString) (hl : newline ∉ l) :
    splitLines (l ++ newline :: rest) = l :: splitLines rest := by
  induction l with
  | nil => simp [splitLines]
  | cons c l ih =>
    have hc : c ≠ newline := fun h => hl (h ▸ List.mem_cons_self _ _)
    have hl2 : newline ∉ l := fun h => hl (List.mem_cons_of_mem _ h)
    simp [splitLines, hc, ih hl2]

/-- A header line of an entry free of newline bytes is one non-empty line. -/
theorem beforeFirstBlankLine_headerLine (kv : GoString × GoString) (rest : GoString)
    (hkv : newline ∉ kv.1 ∧ newline ∉ kv.2) :
    beforeFirstBlankLine (headerLine kv ++ rest) = headerLine kv ++ beforeFirstBlankLine rest := by
  have hline : newline ∉ kv.1 ++ str ": " ++ kv.2 := by
    simp only [List.mem_append, not_or]
    exact ⟨⟨hkv.1, by decide⟩, hkv.2⟩
  have hne : (kv.1 ++ str ": " ++ kv.2).isEmpty = false := by
    have : str ": " = [58, 32] := rfl
    simp [this]
  have e : headerLine kv ++ rest = (kv.1 ++ str ": " ++ kv.2) ++ newline :: rest := by
    simp [headerLine, str_newline]
  rw [e]
  unfold beforeFirstBlankLine
  rw [splitLines_append _ _ hline, List.takeWhile_cons]
  simp only [hne, Bool.not_false, if_true, List.map_cons, List.flatten_cons]
  simp [headerLine, str_newline]

/-- Header lines free of newline bytes, followed by a blank line: the text before
the first blank line is exactly those header lines. -/
theorem beforeFirstBlankLine_headerLines (es : GoMap) (tail : GoString)
    (hes : ∀ kv ∈ es, newline ∉ kv.1 ∧ newline ∉ kv.2) :
    beforeFirstBlankLine ((es.map headerLine).flatten ++ str "\n" ++ tail) =
      (es.map headerLine).flatten := by
  induction es with
  | nil =>
    rw [str_newline]
    show beforeFirstBlankLine (newline :: tail) = []
    simp [beforeFirstBlankLine, splitLines]
  | cons kv es ih =>
    have h1 := hes kv (List.mem_cons_self _ _)
    have h2 : ∀ kv ∈ es, newline ∉ kv.1 ∧ newline ∉ kv.2 :=
      fun x hx => hes x (List.mem_cons_of_mem _ hx)
    simp only [List.map_cons, List.flatten_cons, List.append_assoc]
    rw [beforeFirstBlankLine_headerLine kv _ h1]
    have := ih h2
    simp only [List.append_assoc] at this
    rw [this]

end types

namespace types
open strings

/-- C11 as stated fails: for the header `bootstrap ↦ "a\n\nb"` the text written
is `"bootstrap: a\n\nb\n\n"`, and what stands before its first blank line,
`"bootstrap: a\n"`, is not the header line of the key. -/
theorem populateRaw_header_block_counterexample :
    ¬ (∀ (oh ol : MapOrder) (d : Definition) (v : GoString),
        (d.Header.map Prod.fst).Nodup →
        d.Header.lookup (str "bootstrap") = some v →
        (str "bootstrap: " ++ v ++ str "\n") <+: populateRaw oh ol d [] ∧
        ∃ entries : GoMap, entries.Perm d.Header ∧
          beforeFirstBlankLine (populateRaw oh ol d []) = (entries.map headerLine).flatten) := by
  intro h
  obtain ⟨_, entries, hperm, htext⟩ :=
    h MapOrder.listed MapOrder.listed blankLineDefinition (str "a\n\nb") (by decide) rfl
  have hent : entries = [(str "bootstrap", str "a\n\nb")] := List.perm_singleton.1 hperm
  rw [hent] at htext
  revert htext
  decide

/-- C11 amended: for a definition whose header (a map, so with distinct keys)
holds `bootstrap ↦ v`, and for every iteration order, the text `populateRaw`
writes into a fresh buffer begins with `"bootstrap: v\n"`; it is that line, then
one header line per other key (none of them `bootstrap`), then the newline that
ends the header block, then the sections; and when no header key or value holds a
newline, what stands before the first blank line of the text is exactly these
header lines, one per key. -/
theorem populateRaw_header_block (oh ol : MapOrder) (d : Definition) (v : GoString)
    (hnodup : (d.Header.map Prod.fst).Nodup)
    (hboot : d.Header.lookup (str "bootstrap") = some v) :
    (str "bootstrap: " ++ v ++ str "\n") <+: populateRaw oh ol d [] ∧
    ∃ others : GoMap, ∃ tail : GoString,
      ((str "bootstrap", v) :: others).Perm d.Header ∧
      (∀ kv ∈ others, kv.1 ≠ str "bootstrap") ∧
      populateRaw oh ol d [] =
        (((str "bootstrap", v) :: others).map headerLine).flatten ++ str "\n" ++ tail ∧
      ((∀ kv ∈ d.Header, newline ∉ kv.1 ∧ newline ∉ kv.2) →
        beforeFirstBlankLine (populateRaw oh ol d []) =
          (((str "bootstrap", v) :: others).map headerLine).flatten) := by
  obtain ⟨tail, ht⟩ := populateRaw_shape oh ol d []
  rw [hboot] at ht
  simp only [List.nil_append] at ht
  have hline : headerLine (str "bootstrap", v) = str "bootstrap: " ++ v ++ str "\n" := by
    have e : str "bootstrap" ++ str ": " = str "bootstrap: " := by decide
    simp only [headerLine, e]
  have hperm : ((str "bootstrap", v) ::
      (oh.visit d.Header).filter (fun kv => decide (kv.1 ≠ str "bootstrap"))).Perm d.Header :=
    (List.Perm.cons _ ((oh.perm d.Header).filter _)).trans
      (perm_cons_filter_of_lookup _ v d.Header hnodup hboot)
  have htext : populateRaw oh ol d [] =
      (((str "bootstrap", v) ::
        (oh.visit d.Header).filter (fun kv => decide (kv.1 ≠ str "bootstrap"))).map
          headerLine).flatten ++ str "\n" ++ tail := by
    rw [ht]; simp only [List.map_cons, List.flatten_cons]
  refine ⟨?_, _, tail, hperm, ?_, htext, ?_⟩
  · rw [ht, ← hline]
    simp only [List.append_assoc]
    exact List.prefix_append _ _
  · intro kv hkv
    simpa using (List.mem_filter.1 hkv).2
  · intro hnl
    rw [htext]
    apply beforeFirstBlankLine_headerLines
    intro kv hkv
    exact hnl kv (hperm.subset hkv)

/-- C11 amended, at a definition with three header entries, `bootstrap` listed
second, visited in reverse: the text begins with the `bootstrap` line and the
header block holds one line per key. -/
theorem populateRaw_header_block_witness :
    (sampleDefinition.Header.map Prod.fst).Nodup ∧
    sampleDefinition.Header.lookup (str "bootstrap") = some (str "docker") ∧
    (∀ kv ∈ sampleDefinition.Header, newline ∉ kv.1 ∧ newline ∉ kv.2) ∧
    (str "bootstrap: " ++ str "docker" ++ str "\n") <+:
      populateRaw MapOrder.reversed MapOrder.listed sampleDefinition [] ∧
    (∃ others : GoMap,
      ((str "bootstrap", str "docker") :: others).Perm sampleDefinition.Header ∧
      beforeFirstBlankLine (populateRaw MapOrder.reversed MapOrder.listed sampleDefinition []) =
        (((str "bootstrap", str "docker") :: others).map headerLine).flatten) ∧
    beforeFirstBlankLine (populateRaw MapOrder.reversed MapOrder.listed sampleDefinition []) =
      str "bootstrap: docker\ninclude: yum\nfrom: ubuntu\n" := by
  obtain ⟨hbegin, others, _, hperm, _, _, hblock⟩ :=
    populateRaw_header_block MapOrder.reversed MapOrder.listed sampleDefinition
      (str "docker") (by decide) rfl
  exact ⟨by decide, rfl, by decide, hbegin, ⟨others, hperm, hblock (by decide)⟩, by decide⟩

/-- `NewDefinitionFromJSON` succeeds exactly when every `Decode` before the end
of the stream does, and then returns the decoded definition, with `Raw` rendered
if it was empty. -/
theorem NewDefinitionFromJSON_eq {ε : Type} (oh ol : MapOrder) (r : List (DecodeStep ε))
    (d : Definition) (hdec : NewDefinitionFromJSON.decodeAll r {} = (d, none)) :
    NewDefinitionFromJSON oh ol r =
      (if d.Raw.length = 0 then { d with Raw := populateRaw oh ol d [] } else d, none) := by
  unfold NewDefinitionFromJSON
  rw [hdec]
  simp only []
  split <;> rfl

/-- C12: with `d` the definition produced by decoding the input (every `Decode`
succeeding until `io.EOF`), `NewDefinitionFromJSON` returns `d` itself when
`len(d.Raw) > 0` and `d` with `Raw` set to the `populateRaw` rendering of `d`
when `len(d.Raw) == 0`; every definition returned with a nil error has a
non-empty `Raw`; and the empty input stream succeeds with `Raw == "\n"` and all
other fields zero. -/
theorem NewDefinitionFromJSON_raw {ε : Type} (oh ol : MapOrder) (r : List (DecodeStep ε)) :
    (∀ d, NewDefinitionFromJSON.decodeAll r {} = (d, none) → 0 < d.Raw.length →
      NewDefinitionFromJSON oh ol r = (d, none)) ∧
    (∀ d, NewDefinitionFromJSON.decodeAll r {} = (d, none) → d.Raw.length = 0 →
      NewDefinitionFromJSON oh ol r = ({ d with Raw := populateRaw oh ol d [] }, none)) ∧
    (∀ d, NewDefinitionFromJSON oh ol r = (d, none) → 0 < d.Raw.length) ∧
    NewDefinitionFromJSON oh ol ([] : List (DecodeStep ε)) = ({ Raw := str "\n" }, none) := by
  refine ⟨?_, ?_, ?_, ?_⟩
  · intro d hdec hpos
    rw [NewDefinitionFromJSON_eq oh ol r d hdec, if_neg (by omega)]
  · intro d hdec hzero
    rw [NewDefinitionFromJSON_eq oh ol r d hdec, if_pos hzero]
  · intro d hret
    rcases hdec : NewDefinitionFromJSON.decodeAll r {} with ⟨d0, err⟩
    cases err with
    | some e => simp [NewDefinitionFromJSON, hdec] at hret
    | none =>
      rw [NewDefinitionFromJSON_eq oh ol r d0 hdec] at hret
      have hd : d = if d0.Raw.length = 0 then { d0 with Raw := populateRaw oh ol d0 [] }
          else d0 := (congrArg Prod.fst hret).symm
      rw [hd]
      split
      · exact populateRaw_length_pos oh ol d0
      · omega
  · have h0 : NewDefinitionFromJSON.decodeAll ([] : List (DecodeStep ε)) {} = ({}, none) := rfl
    have hv : oh.visit [] = [] := List.Perm.eq_nil (oh.perm [])
    rw [NewDefinitionFromJSON_eq oh ol [] {} h0]
    simp [populateRaw, writeLabelsIfExists, writeFilesIfExists, writeSectionIfExists, hv]

/-- C12 at a stream of one value without `raw` (the rendering is stored) and at
a stream of two values the second of which carries `raw` (it is kept). -/
theorem NewDefinitionFromJSON_raw_witness :
    NewDefinitionFromJSON MapOrder.listed MapOrder.listed [decodeHeader] =
      ({ Header := [(str "bootstrap", str "docker")], Raw := str "bootstrap: docker\n\n" },
        none) ∧
    NewDefinitionFromJSON MapOrder.listed MapOrder.listed [decodeHeader, decodeRaw] =
      ({ Header := [(str "bootstrap", str "docker")], Raw := str "bootstrap: library\n\n" },
        none) :=
  ⟨((NewDefinitionFromJSON_raw MapOrder.listed MapOrder.listed [decodeHeader]).2.1
      { Header := [(str "bootstrap", str "docker")] } rfl rfl).trans (by decide),
   (NewDefinitionFromJSON_raw MapOrder.listed MapOrder.listed [decodeHeader, decodeRaw]).1
      { Header := [(str "bootstrap", str "docker")], Raw := str "bootstrap: library\n\n" }
      rfl (by decide)⟩

end types

namespace types
open strings

/-- The definition `NewDefinitionFromURI` returns for a uri that contains the
separator `sep` it splits at: the header holds the part before the first `sep`
and the part after it. -/
theorem craft_split (oh ol : MapOrder) (uri sep : GoString) :
    NewDefinitionFromURI.craft oh ol
        [uri.take (Index uri sep).toNat, uri.drop ((Index uri sep).toNat + sep.length)] =
      some ({ Header := [(str "bootstrap", uri.take (Index uri sep).toNat),
                         (str "from", uri.drop ((Index uri sep).toNat + sep.length))],
              Raw := populateRaw oh ol
                { Header := [(str "bootstrap", uri.take (Index uri sep).toNat),
                             (str "from", uri.drop ((Index uri sep).toNat + sep.length))] } [] },
            none) :=
  craft_pair oh ol _ _

/-- The rendering of a definition that has only the header `bootstrap ↦ b`,
`from ↦ f`: the same text for every iteration order. -/
theorem populateRaw_uri (oh ol : MapOrder) (b f : GoString) :
    populateRaw oh ol { Header := [(str "bootstrap", b), (str "from", f)] } [] =
      str "bootstrap: " ++ b ++ str "\nfrom: " ++ f ++ str "\n\n" := by
  have hfil : ((oh.visit [(str "bootstrap", b), (str "from", f)]).filter
      (fun kv => decide (kv.1 ≠ str "bootstrap"))) = [(str "from", f)] := by
    have hp := (oh.perm [(str "bootstrap", b), (str "from", f)]).filter
      (fun kv => decide (kv.1 ≠ str "bootstrap"))
    have hf : List.filter (fun kv => decide (kv.1 ≠ str "bootstrap"))
        [(str "bootstrap", b), (str "from", f)] = [(str "from", f)] := by
      have hne : str "from" ≠ str "bootstrap" := by decide
      simp [List.filter_cons, hne]
    rw [hf] at hp
    exact List.perm_singleton.1 hp
  have hlook : List.lookup (str "bootstrap") [(str "bootstrap", b), (str "from", f)] =
      some b := rfl
  have e1 : str "bootstrap" ++ str ": " = str "bootstrap: " := by decide
  have e2 : str "\n" ++ str "from" ++ str ": " = str "\nfrom: " := by decide
  have e3 : str "\n" ++ str "\n" = str "\n\n" := by decide
  unfold populateRaw
  simp only [foldl_headerLines, hfil, hlook]
  simp only [writeLabelsIfExists, writeFilesIfExists, writeSectionIfExists, headerLine,
    List.length_nil, gt_iff_lt, lt_self_iff_false, if_false, List.foldl_nil, List.map_cons,
    List.map_nil, List.flatten_cons, List.flatten_nil, List.append_nil, List.nil_append]
  rw [← e1, ← e2, ← e3]
  simp only [List.append_assoc]

/-- C13: splitting in `NewDefinitionFromURI` is lossless and happens at the first
separator. For a uri in which `"://"` occurs, the call succeeds with header values
`b` for `bootstrap` and `f` for `from` such that `b ++ "://" ++ f == uri` and
`"://"` does not occur in `b`; for a uri that has a `:` but no `"://"`, it
succeeds with `b ++ ":" ++ f == uri` and no `:` in `b`. In both cases the keys of
the header are exactly `bootstrap` and `from`. -/
theorem NewDefinitionFromURI_split (oh ol : MapOrder) (uri : GoString) :
    (str "://" <:+: uri →
      ∃ d b f, NewDefinitionFromURI oh ol uri = some (d, none) ∧
        d.Header.lookup (str "bootstrap") = some b ∧
        d.Header.lookup (str "from") = some f ∧
        b ++ str "://" ++ f = uri ∧
        ¬ str "://" <:+: b ∧
        d.Header.map Prod.fst = [str "bootstrap", str "from"]) ∧
    (¬ str "://" <:+: uri → colon ∈ uri →
      ∃ d b f, NewDefinitionFromURI oh ol uri = some (d, none) ∧
        d.Header.lookup (str "bootstrap") = some b ∧
        d.Header.lookup (str "from") = some f ∧
        b ++ str ":" ++ f = uri ∧
        colon ∉ b ∧
        d.Header.map Prod.fst = [str "bootstrap", str "from"]) := by
  constructor
  · intro hin
    have hc : Contains uri (str "://") = true := (Contains_iff_occurs _ _).2 hin
    have h0 : 0 ≤ Index uri (str "://") := (Contains_iff _ _).1 hc
    refine ⟨_, _, _, (NewDefinitionFromURI_of_sep oh ol uri hc).trans (craft_split _ _ _ _),
      rfl, rfl, ?_, ?_, rfl⟩
    · rw [List.append_assoc]; exact Index_split uri _ h0
    · intro hb
      have h1 := (Index_nonneg_iff _ _).2 hb
      have h2 := Index_take_neg uri (str "://") (by decide) h0
      omega
  · intro hnin hcol
    have hc3 : Contains uri (str "://") = false := by
      cases h : Contains uri (str "://")
      · rfl
      · exact absurd ((Contains_iff_occurs _ _).1 h) hnin
    have hc : Contains uri (str ":") = true := (Contains_colon_iff uri).2 hcol
    have h0 : 0 ≤ Index uri (str ":") := (Contains_iff _ _).1 hc
    refine ⟨_, _, _, (NewDefinitionFromURI_of_colon oh ol uri hc3 hc).trans (craft_split _ _ _ _),
      rfl, rfl, ?_, ?_, rfl⟩
    · rw [List.append_assoc]; exact Index_split uri _ h0
    · intro hb
      have h1 := (Contains_iff _ _).1 ((Contains_colon_iff _).2 hb)
      have h2 := Index_take_neg uri (str ":") (by decide) h0
      omega

/-- C13 at `"docker://ubuntu:18.04"` (split at `"://"`, not at the later `:`) and
at `"library:alpine:3"` (split at the first `:`). -/
theorem NewDefinitionFromURI_split_witness :
    (∃ d, NewDefinitionFromURI MapOrder.listed MapOrder.listed (str "docker://ubuntu:18.04") =
        some (d, none) ∧
      d.Header = [(str "bootstrap", str "docker"), (str "from", str "ubuntu:18.04")]) ∧
    (∃ d b f, NewDefinitionFromURI MapOrder.listed MapOrder.listed (str "docker://ubuntu:18.04") =
        some (d, none) ∧
      d.Header.lookup (str "bootstrap") = some b ∧
      d.Header.lookup (str "from") = some f ∧
      b ++ str "://" ++ f = str "docker://ubuntu:18.04" ∧
      ¬ str "://" <:+: b ∧
      d.Header.map Prod.fst = [str "bootstrap", str "from"]) ∧
    (∃ d b f, NewDefinitionFromURI MapOrder.listed MapOrder.listed (str "library:alpine:3") =
        some (d, none) ∧
      d.Header.lookup (str "bootstrap") = some b ∧
      d.Header.lookup (str "from") = some f ∧
      b ++ str ":" ++ f = str "library:alpine:3" ∧
      colon ∉ b ∧
      d.Header.map Prod.fst = [str "bootstrap", str "from"]) :=
  ⟨⟨{ Header := [(str "bootstrap", str "docker"), (str "from", str "ubuntu:18.04")],
      Raw := str "bootstrap: docker\nfrom: ubuntu:18.04\n\n" }, by decide, rfl⟩,
    (NewDefinitionFromURI_split MapOrder.listed MapOrder.listed (str "docker://ubuntu:18.04")).1
      ((Contains_iff_occurs _ _).1 (by decide)),
    (NewDefinitionFromURI_split MapOrder.listed MapOrder.listed (str "library:alpine:3")).2
      (fun h => absurd ((Contains_iff_occurs _ _).2 h) (by decide)) (by decide)⟩

/-- C14: whenever `NewDefinitionFromURI(uri)` succeeds, with header values `b`
for `bootstrap` and `f` for `from`, the returned `Raw` is exactly
`"bootstrap: " ++ b ++ "\nfrom: " ++ f ++ "\n\n"`, for every iteration order of
the maps, and every field other than `Header` and `Raw` has its zero value. -/
theorem NewDefinitionFromURI_raw (oh ol : MapOrder) (uri : GoString) (d : Definition)
    (hok : NewDefinitionFromURI oh ol uri = some (d, none)) :
    ∃ b f, d.Header = [(str "bootstrap", b), (str "from", f)] ∧
      d.Header.lookup (str "bootstrap") = some b ∧
      d.Header.lookup (str "from") = some f ∧
      d.Raw = str "bootstrap: " ++ b ++ str "\nfrom: " ++ f ++ str "\n\n" ∧
      d.ImageData = {} ∧ d.BuildData = {} ∧ d.CustomData = [] ∧ d.AppOrder = [] := by
  have key : ∀ sep : GoString,
      NewDefinitionFromURI oh ol uri =
        NewDefinitionFromURI.craft oh ol
          [uri.take (Index uri sep).toNat, uri.drop ((Index uri sep).toNat + sep.length)] →
      ∃ b f, d.Header = [(str "bootstrap", b), (str "from", f)] ∧
        d.Header.lookup (str "bootstrap") = some b ∧
        d.Header.lookup (str "from") = some f ∧
        d.Raw = str "bootstrap: " ++ b ++ str "\nfrom: " ++ f ++ str "\n\n" ∧
        d.ImageData = {} ∧ d.BuildData = {} ∧ d.CustomData = [] ∧ d.AppOrder = [] := by
    intro sep hsep
    rw [hsep, craft_split, populateRaw_uri] at hok
    have hd := congrArg Prod.fst (Option.some.inj hok)
    simp only at hd
    subst hd
    exact ⟨_, _, rfl, rfl, rfl, rfl, rfl, rfl, rfl, rfl⟩
  cases h3 : Contains uri (str "://")
  · cases h1 : Contains uri (str ":")
    · rw [NewDefinitionFromURI_of_none oh ol uri h1] at hok
      simp at hok
    · exact key _ (NewDefinitionFromURI_of_colon oh ol uri h3 h1)
  · exact key _ (NewDefinitionFromURI_of_sep oh ol uri h3)

/-- C14 at `"docker://ubuntu"` with the header visited in reverse. -/
theorem NewDefinitionFromURI_raw_witness :
    NewDefinitionFromURI MapOrder.reversed MapOrder.listed (str "docker://ubuntu") =
      some ({ Header := [(str "bootstrap", str "docker"), (str "from", str "ubuntu")],
              Raw := str "bootstrap: docker\nfrom: ubuntu\n\n" }, none) ∧
    ∃ b f,
      b = str "docker" ∧ f = str "ubuntu" ∧
      str "bootstrap: docker\nfrom: ubuntu\n\n" =
        str "bootstrap: " ++ b ++ str "\nfrom: " ++ f ++ str "\n\n" := by
  refine ⟨by decide, ?_⟩
  obtain ⟨b, f, hh, _, _, hraw, _⟩ :=
    NewDefinitionFromURI_raw MapOrder.reversed MapOrder.listed (str "docker://ubuntu")
      { Header := [(str "bootstrap", str "docker"), (str "from", str "ubuntu")],
        Raw := str "bootstrap: docker\nfrom: ubuntu\n\n" } (by decide)
  simp only [List.cons.injEq, Prod.mk.injEq, true_and, and_true] at hh
  exact ⟨b, f, hh.1.symm, hh.2.symm, hraw⟩

end types

end Apptainer
